import Mathlib

/-!
Verification of the oracle source-list core (`src/main.rs`).

The embedding translates the four adapters and their `fetch` methods.
External collaborators (the HTTP transport `reqwest`, the JSON parser
`serde_json`, the `jsonpath_rust` query engine, the system clock and the
randomness generator) are passed to `fetch` as explicit function
arguments, so theorems can quantify over their behaviour; small concrete
instances of them are supplied in witnesses.

Numeric values are modelled by `FNum`: an exact-rational abstraction of
Rust's `f64` that keeps the sign, the infinities and NaN faithful while
representing finite magnitudes exactly.  The binary64 rounding of the
real code (and the precision of `powf`) is deliberately not modelled;
no theorem below depends on the exact magnitude of an inexactly
representable value.
-/

/-- Modelled from the spec (§7): the error taxonomy lives in
`oracleerror.rs`, which is not among the sources; `main.rs` constructs
`DataNotFound` and `Reqwest` directly and relies on `From` conversions
for `reqwest` and `serde_json` errors, which §7 names `TransportError`
and `ParseError`. -/
inductive OracleError where
  | ClockError
  | TransportError
  | ParseError
  | DataNotFound
  | NumericFormatError
  | IndexOutOfRange
deriving DecidableEq, Repr

/-- Result of one `fetch` call.  `ok v` is `Ok(U256::from(v))`, `err e`
is `Err(e)`, and `panic` records that the Rust code panics (an
`unwrap()` on `None`/`Err`, or an out-of-bounds `Vec` index). -/
inductive Outcome where
  | ok (v : ℕ)
  | err (e : OracleError)
  | panic
deriving DecidableEq, Repr

/-- `serde_json::Value`.  Numbers carry the decoded numeric value as an
exact rational. -/
inductive Json where
  | null
  | bool (b : Bool)
  | num (q : ℚ)
  | str (s : String)
  | arr (xs : List Json)
  | obj (fields : List (String × Json))

/-- An `f64` value, abstracted: finite values carry their magnitude as
an exact rational; the infinities and NaN are explicit. -/
inductive FNum where
  | finite (q : ℚ)
  | inf
  | neginf
  | nan

/-- `Value::as_f64`: `Some` exactly for JSON numbers. -/
def Json.as_f64 : Json → Option FNum
  | .num q => some (.finite q)
  | _ => none

/-- `Value::as_str`: `Some` exactly for JSON strings. -/
def Json.as_str : Json → Option String
  | .str s => some s
  | _ => none

/-- `Value::is_string`. -/
def Json.is_string : Json → Bool
  | .str _ => true
  | _ => false

def lb : Char := Char.ofNat 123

def rb : Char := Char.ofNat 125

/-- The two-character placeholder marker of the URL templates. -/
def markerL : List Char := [lb, rb]

def markerStr : String := ⟨markerL⟩

/-- `str::replacen(pat, rep, 1)` on character lists: replace the
leftmost occurrence of `pat`, if any. -/
def replaceFirst (pat rep : List Char) : List Char → List Char
  | [] => if pat = [] then rep else []
  | c :: rest =>
    if pat.isPrefixOf (c :: rest) then rep ++ List.drop pat.length (c :: rest)
    else c :: replaceFirst pat rep rest

/-- `String::replacen(pat, rep, 1)`. -/
def replacen (s pat rep : String) : String :=
  ⟨replaceFirst pat.data rep.data s.data⟩

/-- Digit run to a natural number. -/
def digitsVal (l : List Char) : ℕ :=
  l.foldl (fun n c => 10 * n + (c.toNat - 48)) 0

/-- Split a char list at the first exponent letter, keeping what
follows it. -/
def splitExp : List Char → List Char × Option (List Char)
  | [] => ([], none)
  | c :: r =>
    if c = 'e' ∨ c = 'E' then ([], some r)
    else
      let p := splitExp r
      (c :: p.1, p.2)

/-- Mantissa of the `f64` grammar: `Digits '.'? Digits?` or
`'.' Digits`.  The exact value, integer and fractional digits over
the power of ten of the fraction length, is built with `mkRat` (the
irreducible rational addition and division are avoided so that
concrete runs evaluate). -/
def parseMantissa (m : List Char) : Option ℚ :=
  let intPart := m.takeWhile Char.isDigit
  let rest := m.dropWhile Char.isDigit
  match rest with
  | [] => if intPart = [] then none else some (mkRat (Int.ofNat (digitsVal intPart)) 1)
  | c :: frac =>
    if c = '.' then
      if frac.all Char.isDigit then
        if intPart = [] ∧ frac = [] then none
        else
          some (mkRat (Int.ofNat (digitsVal intPart * 10 ^ frac.length + digitsVal frac))
            (10 ^ frac.length))
      else none
    else none

/-- Exponent of the `f64` grammar: an optional sign then a nonempty
digit run. -/
def parseExpPart (cs : List Char) : Option ℤ :=
  let sr : Bool × List Char :=
    match cs with
    | '+' :: r => (false, r)
    | '-' :: r => (true, r)
    | r => (false, r)
  if sr.2 ≠ [] ∧ sr.2.all Char.isDigit then
    some (if sr.1 then -(digitsVal sr.2 : ℤ) else (digitsVal sr.2 : ℤ))
  else none

/-- Scale an exact rational by a signed power of ten, via `mkRat` on
the numerator or denominator. -/
def applyExp (q : ℚ) : ℤ → ℚ
  | Int.ofNat e => mkRat (q.num * Int.ofNat (10 ^ e)) q.den
  | Int.negSucc e => mkRat q.num (q.den * 10 ^ (e + 1))

/-- Unsigned part of the `f64` grammar: mantissa with optional
exponent. -/
def parseNumberPart (cs : List Char) : Option ℚ :=
  let p := splitExp cs
  match parseMantissa p.1 with
  | none => none
  | some q =>
    match p.2 with
    | none => some q
    | some ecs =>
      match parseExpPart ecs with
      | none => none
      | some k => some (applyExp q k)

/-- Models `str::parse::<f64>()` from the Rust standard library (an
external collaborator): the accepted grammar is the one documented for
`f64::from_str` (optional sign; `inf`, `infinity`, `nan`
case-insensitively; or a decimal number with optional fraction and
exponent).  Finite magnitudes are kept exact instead of being rounded
to binary64. -/
def parseF64 (s : String) : Option FNum :=
  match s.data with
  | [] => none
  | cs =>
    let sr : Bool × List Char :=
      match cs with
      | '+' :: r => (false, r)
      | '-' :: r => (true, r)
      | r => (false, r)
    let low := sr.2.map Char.toLower
    if low = "inf".data ∨ low = "infinity".data then
      some (if sr.1 then FNum.neginf else FNum.inf)
    else if low = "nan".data then some FNum.nan
    else
      match parseNumberPart sr.2 with
      | none => none
      | some q => some (FNum.finite (if sr.1 then -q else q))

/-- `price * 10_f64.powf(decimal)` on the abstract numbers: a finite
value is scaled exactly to `q * 10 ^ d` (see `fmulPow_finite`; the
`mkRat` form avoids the irreducible rational multiplication so that
concrete runs evaluate); the sign classes are preserved. -/
def fmulPow : FNum → ℕ → FNum
  | .finite q, d => .finite (mkRat (q.num * Int.ofNat (10 ^ d)) q.den)
  | .inf, _ => .inf
  | .neginf, _ => .neginf
  | .nan, _ => .nan

def u64max : ℕ := 2 ^ 64 - 1

/-- The Rust `as u64` cast on an `f64`: NaN and negative values go to
`0`, values at or above `u64::MAX` saturate there, and finite values
in range are truncated toward zero. -/
def castU64 : FNum → ℕ
  | .nan => 0
  | .neginf => 0
  | .inf => u64max
  | .finite q => if q < 0 then 0 else min q.floor.toNat u64max

/-- The tail of both price pipelines:
`Ok(U256::from((price * 10_f64.powf(decimal)) as u64))`. -/
def priceResult (price : FNum) (decimal : ℕ) : Outcome :=
  Outcome.ok (castU64 (fmulPow price decimal))

structure TimeSourceAdapter where
  name : String

/-- `TimeSourceAdapter::fetch`.  The clock argument models
`SystemTime::now().duration_since(UNIX_EPOCH)` followed by
`.as_secs()`: `Except.ok secs` for a clock at or after the epoch,
`Except.error ()` for a pre-epoch clock.  The code calls `.unwrap()`
on that result, so the error case panics. -/
def TimeSourceAdapter.fetch (_a : TimeSourceAdapter)
    (clock : Except Unit ℕ) (_ps : List ℕ) : Outcome :=
  match clock with
  | Except.error _ => Outcome.panic
  | Except.ok secs => Outcome.ok secs

structure RngSourceAdapter where
  name : String

/-- `RngSourceAdapter::fetch`.  The `rng` argument models the output
the declared randomness source would produce on this call; the code
ignores it (the generator invocation is commented out) and returns the
constant `U256::from(1)`. -/
def RngSourceAdapter.fetch (_a : RngSourceAdapter)
    (_rng : ℕ) (_ps : List ℕ) : Outcome :=
  Outcome.ok 1

structure ExchangeSourceAdapter where
  name : String
  url : String
  params : List String
  jsonpath : String
  decimal : ℕ
  bases : List String
  quotes : List String

/-- The URL-resolution loop of `ExchangeSourceAdapter::fetch`: one
`replacen("{}", param, 1)` per configured param, then one for the
quote symbol, then one for the base symbol. -/
def ExchangeSourceAdapter.resolveUrl (a : ExchangeSourceAdapter)
    (q b : String) : String :=
  replacen (replacen (a.params.foldl (fun u p => replacen u markerStr p) a.url) markerStr q)
    markerStr b

/-- `ExchangeSourceAdapter::fetch`.  `pathEval` models the external
`jsonpath_rust` engine (`None` = syntactically invalid query, whose
`unwrap()` panics; `some ms` = the list of matches), `http` models
`reqwest::blocking::get(url)?.text()?`, and `parseJson` models
`serde_json::from_str`.  `ps` is the raw `Vec<u8>` request parameter;
out-of-bounds indexing of `ps`, `quotes` or `bases` panics, exactly as
the Rust `Vec` indexing does. -/
def ExchangeSourceAdapter.fetch (a : ExchangeSourceAdapter)
    (pathEval : String → Json → Option (List Json))
    (http : String → Except Unit String)
    (parseJson : String → Option Json)
    (ps : List ℕ) : Outcome :=
  match ps.get? 0 with
  | none => Outcome.panic
  | some i0 =>
    match a.quotes.get? i0 with
    | none => Outcome.panic
    | some q =>
      match ps.get? 1 with
      | none => Outcome.panic
      | some i1 =>
        match a.bases.get? i1 with
        | none => Outcome.panic
        | some b =>
          match http (a.resolveUrl q b) with
          | Except.error _ => Outcome.err OracleError.TransportError
          | Except.ok body =>
            match parseJson body with
            | none => Outcome.err OracleError.ParseError
            | some doc =>
              match pathEval a.jsonpath doc with
              | none => Outcome.panic
              | some ms =>
                match ms.head? with
                | none => Outcome.err OracleError.DataNotFound
                | some data =>
                  match data.as_f64 with
                  | some price => priceResult price a.decimal
                  | none =>
                    match data.as_str with
                    | none => Outcome.panic
                    | some s =>
                      match parseF64 s with
                      | none => Outcome.panic
                      | some price => priceResult price a.decimal

structure CustomSourceAdapter where
  url : String
  jsonpath : String
  decimal : ℕ

/-- `CustomSourceAdapter::fetch`.  The JSON parse result is
`unwrap()`ed (invalid JSON panics); the first match is taken with the
`serde_json` `Index` operator, which yields `Value::Null` when there
is no match; a non-string match flows through `as_f64().unwrap()` and
a string match through `parse::<f64>().unwrap()`, so both panic when
the conversion fails. -/
def CustomSourceAdapter.fetch (a : CustomSourceAdapter)
    (pathEval : String → Json → Option (List Json))
    (http : String → Except Unit String)
    (parseJson : String → Option Json)
    (_ps : List ℕ) : Outcome :=
  match http a.url with
  | Except.error _ => Outcome.err OracleError.TransportError
  | Except.ok body =>
    match parseJson body with
    | none => Outcome.panic
    | some doc =>
      match pathEval a.jsonpath doc with
      | none => Outcome.panic
      | some ms =>
        let data := ms.head?.getD Json.null
        if data.is_string then
          match data.as_str with
          | none => Outcome.panic
          | some s =>
            match parseF64 s with
            | none => Outcome.panic
            | some price => priceResult price a.decimal
        else
          match data.as_f64 with
          | none => Outcome.panic
          | some price => priceResult price a.decimal

/-- Field lookup in a JSON object. -/
def lookupField (k : String) : List (String × Json) → Option Json
  | [] => none
  | kv :: rest => if kv.1 = k then some kv.2 else lookupField k rest

/-- Models the external `jsonpath_rust` engine on the single-field
queries of the form `$.field` used by the concrete configurations:
the match list is the field's value when present, empty otherwise. -/
def simplePathEval (p : String) (doc : Json) : Option (List Json) :=
  match p.data with
  | '$' :: '.' :: key =>
    match doc with
    | Json.obj fs =>
      match lookupField (⟨key⟩ : String) fs with
      | some v => some [v]
      | none => some []
    | _ => some []
  | _ => none

/-- The spec's placeholder convention (§6), written from its words: the
marker occurrences of the template are replaced left-to-right, one
value each, in the fixed order of the value list, and substituted text
is not rescanned.  Comparison point for the refinement claim about
`resolveUrl`. -/
def substMarkers : List Char → List (List Char) → List Char
  | [], _ => []
  | s, [] => s
  | [c], _ :: _ => [c]
  | c :: d :: t, v :: vs =>
    if c = lb ∧ d = rb then v ++ substMarkers t vs
    else c :: substMarkers (d :: t) (v :: vs)

/-- The spec's resolved URL: positional substitution of the configured
params, then the quote symbol, then the base symbol. -/
def specResolveUrl (a : ExchangeSourceAdapter) (q b : String) : String :=
  ⟨substMarkers a.url.data ((a.params ++ [q, b]).map String.data)⟩

/-- A substituted value that cannot interfere with the marker scan:
nonempty and free of both marker characters. -/
def goodVal (v : List Char) : Prop :=
  v ≠ [] ∧ lb ∉ v ∧ rb ∉ v

instance (v : List Char) : Decidable (goodVal v) := by
  unfold goodVal; infer_instance

/-- Exchange adapter of the spec's Scenario D: a single quote symbol,
so the request parameters `[5, 0]` select an out-of-range quote. -/
def scenD : ExchangeSourceAdapter :=
  ⟨"d", "u?s=\x7b\x7d\x7b\x7d", [], "$.price", 0, ["USDT"], ["BTC"]⟩

/-- Custom adapter with `jsonpath` `$.price` and `decimal` 0. -/
def ca3 : CustomSourceAdapter := ⟨"https://a", "$.price", 0⟩

/-- Custom adapter with `jsonpath` `$.price` and `decimal` 2. -/
def ca4 : CustomSourceAdapter := ⟨"https://b", "$.price", 2⟩

/-- Exchange adapter with `jsonpath` `$.price` and `decimal` 2. -/
def ex4 : ExchangeSourceAdapter :=
  ⟨"e4", "u?s=\x7b\x7d\x7b\x7d", [], "$.price", 2, ["USDT"], ["BTC"]⟩

/-- Exchange adapter whose single configured param itself contains the
placeholder marker, so sequential `replacen` rescans substituted
text. -/
def cex8 : ExchangeSourceAdapter :=
  ⟨"cex", "a\x7b\x7db\x7b\x7dc\x7b\x7dd", ["X\x7b\x7dY"], "$.p", 0, ["B"], ["Q"]⟩

/-- Exchange adapter of the spec's Scenario C: no configured params,
two markers, one quote and one base symbol. -/
def scenC : ExchangeSourceAdapter :=
  ⟨"c", "https://api?sym=\x7b\x7d\x7b\x7d", [], "$.price", 0, ["USDT"], ["BTC"]⟩

/-- Custom adapter with `jsonpath` `$.price` and `decimal` 0. -/
def ca10 : CustomSourceAdapter := ⟨"https://z", "$.price", 0⟩

theorem substMarkers_nilvals (s : List Char) : substMarkers s [] = s := by
  cases s with
  | nil => rfl
  | cons c t => cases t <;> rfl

theorem markerL_isPrefixOf_cons2 (c d : Char) (t : List Char) :
    markerL.isPrefixOf (c :: d :: t) = true ↔ (c = lb ∧ d = rb) := by
  simp only [markerL, List.isPrefixOf, Bool.and_eq_true, beq_iff_eq]
  constructor
  · rintro ⟨h1, h2, -⟩; exact ⟨h1.symm, h2.symm⟩
  · rintro ⟨h1, h2⟩; exact ⟨h1.symm, h2.symm, trivial⟩

theorem markerL_isPrefixOf_single (c : Char) : markerL.isPrefixOf [c] = false := by
  simp [markerL, List.isPrefixOf]

theorem substMarkers_cons_ne (c : Char) (s : List Char) (vs : List (List Char))
    (hc : c ≠ lb) : substMarkers (c :: s) vs = c :: substMarkers s vs := by
  cases vs with
  | nil => rw [substMarkers_nilvals, substMarkers_nilvals]
  | cons v vs' =>
    cases s with
    | nil => rfl
    | cons d t =>
      have h : ¬(c = lb ∧ d = rb) := fun h => hc h.1
      simp [substMarkers, h]

theorem substMarkers_cons2_ne (c d : Char) (t : List Char) (vs : List (List Char))
    (h : ¬(c = lb ∧ d = rb)) :
    substMarkers (c :: d :: t) vs = c :: substMarkers (d :: t) vs := by
  cases vs with
  | nil => rw [substMarkers_nilvals, substMarkers_nilvals]
  | cons v vs' => simp [substMarkers, h]

theorem substMarkers_append (x y : List Char) (vs : List (List Char))
    (hx : lb ∉ x) : substMarkers (x ++ y) vs = x ++ substMarkers y vs := by
  induction x with
  | nil => simp
  | cons c x' ih =>
    have hc : c ≠ lb := fun h => hx (h ▸ List.mem_cons_self c x')
    rw [List.cons_append, substMarkers_cons_ne c (x' ++ y) vs hc,
      ih (fun h => hx (List.mem_cons_of_mem c h))]
    rfl

theorem replaceFirst_cons_ne_nil (c : Char) (t : List Char) (v : List Char) (hv : v ≠ []) :
    replaceFirst markerL v (c :: t) ≠ [] := by
  simp only [replaceFirst]
  split
  · simp [hv]
  · simp

theorem substMarkers_replaceFirst (v : List Char) (hv : goodVal v) (t : List Char) :
    ∀ vs : List (List Char),
      substMarkers (replaceFirst markerL v t) vs = substMarkers t (v :: vs) := by
  induction t with
  | nil =>
    intro vs
    have h1 : replaceFirst markerL v [] = [] := by simp [replaceFirst, markerL]
    rw [h1]
    cases vs <;> rfl
  | cons c t' ih =>
    intro vs
    by_cases hpre : markerL.isPrefixOf (c :: t') = true
    · cases t' with
      | nil => simp [markerL_isPrefixOf_single] at hpre
      | cons d t2 =>
        obtain ⟨hc, hd⟩ := (markerL_isPrefixOf_cons2 c d t2).mp hpre
        subst hc; subst hd
        have h1 : replaceFirst markerL v (lb :: rb :: t2) = v ++ t2 := by
          simp only [replaceFirst]
          rw [if_pos hpre]
          rfl
        rw [h1, substMarkers_append v t2 vs hv.2.1]
        have h2 : substMarkers (lb :: rb :: t2) (v :: vs) = v ++ substMarkers t2 vs := by
          simp [substMarkers]
        rw [h2]
    · have h1 : replaceFirst markerL v (c :: t') = c :: replaceFirst markerL v t' := by
        simp only [replaceFirst]
        rw [if_neg hpre]
      rw [h1]
      by_cases hc : c = lb
      · subst hc
        cases t' with
        | nil =>
          have h2 : replaceFirst markerL v [] = [] := by simp [replaceFirst, markerL]
          rw [h2]
          cases vs <;> rfl
        | cons d t2 =>
          have hd : d ≠ rb := by
            intro h
            exact hpre ((markerL_isPrefixOf_cons2 lb d t2).mpr ⟨rfl, h⟩)
          obtain ⟨e, rest, hr⟩ : ∃ e rest, replaceFirst markerL v (d :: t2) = e :: rest := by
            cases h : replaceFirst markerL v (d :: t2) with
            | nil => exact absurd h (replaceFirst_cons_ne_nil d t2 v hv.1)
            | cons e rest => exact ⟨e, rest, rfl⟩
          have he : e ≠ rb := by
            have h := hr
            simp only [replaceFirst] at h
            split at h
            · cases v with
              | nil => exact absurd rfl hv.1
              | cons v0 v' =>
                rw [List.cons_append] at h
                injection h with h0 _
                intro hE
                apply hv.2.2
                have hv0 : v0 = rb := h0.trans hE
                rw [hv0]
                exact List.mem_cons_self _ _
            · injection h with h0 _
              intro hE
              exact hd (h0.trans hE)
          rw [hr, substMarkers_cons2_ne lb e rest vs (fun hh => he hh.2), ← hr, ih vs,
            substMarkers_cons2_ne lb d t2 (v :: vs) (fun hh => hd hh.2)]
      · rw [substMarkers_cons_ne c _ vs hc, ih vs, substMarkers_cons_ne c t' (v :: vs) hc]

theorem foldl_replaceFirst_eq_substMarkers (vals : List (List Char)) (t : List Char)
    (h : ∀ v ∈ vals, goodVal v) :
    vals.foldl (fun s v => replaceFirst markerL v s) t = substMarkers t vals := by
  induction vals generalizing t with
  | nil => simp [substMarkers_nilvals]
  | cons v vs ih =>
    rw [List.foldl_cons, ih _ (fun w hw => h w (List.mem_cons_of_mem v hw)),
      ← substMarkers_replaceFirst v (h v (List.mem_cons_self v vs)) t vs]

theorem foldl_replacen_data (ps : List String) (u : String) :
    ps.foldl (fun s v => replacen s markerStr v) u =
      ⟨(ps.map String.data).foldl (fun s v => replaceFirst markerL v s) u.data⟩ := by
  induction ps generalizing u with
  | nil => rfl
  | cons p ps ih =>
    rw [List.foldl_cons, List.map_cons, List.foldl_cons, ih]
    rfl

theorem fmulPow_finite (q : ℚ) (d : ℕ) :
    fmulPow (FNum.finite q) d = FNum.finite (q * 10 ^ d) := by
  show FNum.finite (mkRat (q.num * Int.ofNat (10 ^ d)) q.den) = FNum.finite (q * 10 ^ d)
  congr 1
  rw [Rat.mkRat_eq_divInt, Rat.divInt_eq_div]
  push_cast
  rw [mul_div_right_comm, Rat.num_div_den]
  norm_cast

theorem castU64_le (x : FNum) : castU64 x ≤ 2 ^ 64 - 1 := by
  cases x with
  | finite q =>
    simp only [castU64]
    split
    · exact Nat.zero_le _
    · exact min_le_right _ _
  | inf => exact le_refl _
  | neginf => exact Nat.zero_le _
  | nan => exact Nat.zero_le _

theorem priceResult_le (p : FNum) (d : ℕ) (v : ℕ)
    (h : priceResult p d = Outcome.ok v) : v ≤ 2 ^ 64 - 1 := by
  unfold priceResult at h
  injection h with h'
  exact h' ▸ castU64_le _

/-- Claim C2 (code_bug evidence): with a single configured quote
symbol and request parameters `[5, 0]`, the Exchange `fetch` panics on
the out-of-bounds `Vec` index instead of returning `IndexOutOfRange`;
the panic is the outcome whatever the transport would answer, so no
network response is consulted. -/
theorem exchange_oob_request_panics :
    ∀ (pathEval : String → Json → Option (List Json))
      (http : String → Except Unit String)
      (parseJson : String → Option Json),
      scenD.fetch pathEval http parseJson [5, 0] = Outcome.panic ∧
      scenD.fetch pathEval http parseJson [0, 7] = Outcome.panic :=
  fun _ _ _ => ⟨rfl, rfl⟩

/-- Claim C3 (code_bug evidence): on a first match that is neither
numeric nor a string, and on a string that does not parse, the Custom
`fetch` panics instead of returning `NumericFormatError`; a negative
value yields `Ok(0)` and the string `inf` saturates to `Ok(u64::MAX)`,
again never `NumericFormatError`. -/
theorem custom_nonnumeric_match_panics :
    ca3.fetch simplePathEval (fun _ => Except.ok "body")
      (fun _ => some (Json.obj [("price", Json.bool true)])) [] = Outcome.panic ∧
    ca3.fetch simplePathEval (fun _ => Except.ok "body")
      (fun _ => some (Json.obj [("price", Json.str "abc")])) [] = Outcome.panic ∧
    ca3.fetch simplePathEval (fun _ => Except.ok "body")
      (fun _ => some (Json.obj [("price", Json.str "-5")])) [] = Outcome.ok 0 ∧
    ca3.fetch simplePathEval (fun _ => Except.ok "body")
      (fun _ => some (Json.obj [("price", Json.str "inf")])) [] = Outcome.ok (2 ^ 64 - 1) ∧
    ex4.fetch simplePathEval (fun _ => Except.ok "body")
      (fun _ => some (Json.obj [("price", Json.bool true)])) [0, 0] = Outcome.panic := by
  decide

/-- Claim C4 (code_bug evidence): on a well-formed body on which the
query matches nothing, the Exchange `fetch` returns `DataNotFound` as
specified, but the Custom `fetch` panics (the `serde_json` index
yields `Null`, and `as_f64().unwrap()` on `Null` panics). -/
theorem zero_matches_outcomes :
    ex4.fetch simplePathEval (fun _ => Except.ok "\x7b\x7d")
      (fun _ => some (Json.obj [])) [0, 0] = Outcome.err OracleError.DataNotFound ∧
    ca4.fetch simplePathEval (fun _ => Except.ok "\x7b\x7d")
      (fun _ => some (Json.obj [])) [] = Outcome.panic :=
  ⟨rfl, rfl⟩

/-- Claim C5 (code_bug evidence): on a body that is not well-formed
JSON, the Exchange `fetch` returns `ParseError` through the `?`
conversion, but the Custom `fetch` panics on its `unwrap()` of the
parse result. -/
theorem invalid_json_outcomes :
    ex4.fetch simplePathEval (fun _ => Except.ok "not json") (fun _ => none) [0, 0]
      = Outcome.err OracleError.ParseError ∧
    ca4.fetch simplePathEval (fun _ => Except.ok "not json") (fun _ => none) []
      = Outcome.panic :=
  ⟨rfl, rfl⟩

/-- Claim C6 (code_bug evidence): the Rng `fetch` returns the constant
`1` for every adapter instance, every randomness-source output and
every request parameter — the declared randomness source is never
consulted. -/
theorem rng_fetch_constant_one :
    ∀ (a : RngSourceAdapter) (rng : ℕ) (ps : List ℕ),
      a.fetch rng ps = Outcome.ok 1 :=
  fun _ _ _ => rfl

/-- Claim C7 (partly code_bug): the Time `fetch` ignores `params` and
returns the clock's whole seconds with no scaling, but when the clock
reports a pre-epoch time (`duration_since` fails) it panics via
`unwrap()` instead of returning `ClockError`. -/
theorem time_fetch_clock_behaviour :
    ∀ (a : TimeSourceAdapter) (ps : List ℕ),
      (∀ secs : ℕ, a.fetch (Except.ok secs) ps = Outcome.ok secs) ∧
      a.fetch (Except.error ()) ps = Outcome.panic :=
  fun _ _ => ⟨fun _ => rfl, rfl⟩

/-- Claim C8 counterexample: when a configured param itself contains
the placeholder marker, the code's sequential `replacen` substitutes
into previously substituted text, so the resolved URL differs from the
left-to-right once-per-marker template substitution the claim
describes. -/
theorem resolve_url_spec_cex :
    cex8.quotes.get? 0 = some "Q" ∧ cex8.bases.get? 0 = some "B" ∧
    cex8.resolveUrl "Q" "B" = "aXQYbBc\x7b\x7dd" ∧
    specResolveUrl cex8 "Q" "B" = "aX\x7b\x7dYbQcBd" ∧
    cex8.resolveUrl "Q" "B" ≠ specResolveUrl cex8 "Q" "B" := by
  decide

/-- Claim C8 (amended): provided no substituted value (configured
param, selected quote symbol or base symbol) is empty or contains a
marker character, the resolved URL is exactly the configured template
with its markers replaced left-to-right, each occurrence once, by the
params in order, then the quote symbol, then the base symbol. -/
theorem resolve_url_positional_subst
    (a : ExchangeSourceAdapter) (i0 i1 : ℕ) (q b : String)
    (_hq : a.quotes.get? i0 = some q) (_hb : a.bases.get? i1 = some b)
    (hgood : ∀ v ∈ a.params ++ [q, b], goodVal v.data) :
    a.resolveUrl q b = specResolveUrl a q b := by
  unfold ExchangeSourceAdapter.resolveUrl specResolveUrl
  have hfold : (a.params ++ [q, b]).foldl (fun s v => replacen s markerStr v) a.url
      = replacen (replacen (a.params.foldl (fun u p => replacen u markerStr p) a.url)
          markerStr q) markerStr b := by
    rw [List.foldl_append]
    rfl
  rw [← hfold, foldl_replacen_data]
  have hmap : ∀ v ∈ (a.params ++ [q, b]).map String.data, goodVal v := by
    intro v hv
    rw [List.mem_map] at hv
    obtain ⟨w, hw, rfl⟩ := hv
    exact hgood w hw
  rw [foldl_replaceFirst_eq_substMarkers _ _ hmap]

/-- Witness for the amended claim C8, at the spec's Scenario C
configuration. -/
theorem resolve_url_positional_subst_witness :
    scenC.resolveUrl "BTC" "USDT" = specResolveUrl scenC "BTC" "USDT" :=
  resolve_url_positional_subst scenC 0 0 "BTC" "USDT" rfl rfl (by decide)

/-- Claim C9: `fetch` is deterministic — two sequential calls with the
same adapter, the same request parameters and an unchanged upstream
(transport snapshots that agree on every URL, the same clock reading,
the same randomness output) produce identical results; no adapter
carries cross-call state in the embedding. -/
theorem fetch_deterministic
    (e : ExchangeSourceAdapter) (c : CustomSourceAdapter)
    (t : TimeSourceAdapter) (r : RngSourceAdapter)
    (pathEval : String → Json → Option (List Json))
    (http1 http2 : String → Except Unit String)
    (parseJson : String → Option Json)
    (clock : Except Unit ℕ) (rng : ℕ) (ps : List ℕ)
    (hup : ∀ u, http1 u = http2 u) :
    e.fetch pathEval http1 parseJson ps = e.fetch pathEval http2 parseJson ps ∧
    c.fetch pathEval http1 parseJson ps = c.fetch pathEval http2 parseJson ps ∧
    t.fetch clock ps = t.fetch clock ps ∧
    r.fetch rng ps = r.fetch rng ps := by
  have h : http1 = http2 := funext hup
  subst h
  exact ⟨rfl, rfl, rfl, rfl⟩

/-- Witness for claim C9 at a concrete adapter and upstream. -/
theorem fetch_deterministic_witness :
    scenC.fetch simplePathEval (fun _ => Except.error ()) (fun _ => none) [0, 0]
      = scenC.fetch simplePathEval (fun _ => Except.error ()) (fun _ => none) [0, 0] :=
  (fetch_deterministic scenC ca10 ⟨"time"⟩ ⟨"rng"⟩ simplePathEval
    (fun _ => Except.error ()) (fun _ => Except.error ()) (fun _ => none)
    (Except.ok 0) 0 [0, 0] (fun _ => rfl)).1

/-- Claim C10: every successful Exchange or Custom `fetch` result is
at most `2^64 - 1`, because the scaled price passes through the
saturating `as u64` cast before the 256-bit widening; a scaled price
above `u64::MAX` is clamped to it rather than reported as an error,
as the concrete run in the last conjunct shows. -/
theorem fetch_result_fits_u64 :
    (∀ (a : ExchangeSourceAdapter) (pathEval : String → Json → Option (List Json))
       (http : String → Except Unit String) (parseJson : String → Option Json)
       (ps : List ℕ) (v : ℕ),
        a.fetch pathEval http parseJson ps = Outcome.ok v → v ≤ 2 ^ 64 - 1) ∧
    (∀ (c : CustomSourceAdapter) (pathEval : String → Json → Option (List Json))
       (http : String → Except Unit String) (parseJson : String → Option Json)
       (ps : List ℕ) (v : ℕ),
        c.fetch pathEval http parseJson ps = Outcome.ok v → v ≤ 2 ^ 64 - 1) ∧
    ca10.fetch simplePathEval (fun _ => Except.ok "b")
      (fun _ => some (Json.obj [("price", Json.num 1180591620717411303424)])) []
      = Outcome.ok (2 ^ 64 - 1) := by
  refine ⟨?_, ?_, by decide⟩
  · intro a pe h pj ps v hf
    unfold ExchangeSourceAdapter.fetch at hf
    repeat' split at hf
    all_goals
      first
        | exact priceResult_le _ _ _ hf
        | cases hf
  · intro c pe h pj ps v hf
    simp only [CustomSourceAdapter.fetch] at hf
    repeat' split at hf
    all_goals
      first
        | exact priceResult_le _ _ _ hf
        | cases hf

/-- Witness for claim C10: a concrete Custom fetch succeeds with 100,
which the theorem bounds by the 64-bit maximum. -/
theorem fetch_result_fits_u64_witness : (100 : ℕ) ≤ 2 ^ 64 - 1 :=
  fetch_result_fits_u64.2.1 ⟨"https://w", "$.price", 2⟩ simplePathEval
    (fun _ => Except.ok "b") (fun _ => some (Json.obj [("price", Json.num 1)])) [] 100
    (by decide)
